import Mathlib

/-!
Verification of the GoTime rules engine against its design document.
The authoritative server module is the Go rules engine described in the
design document (board model, group/liberty analyzer, move validator,
capture processor, scoring engine, session state machine); the client
code supplies the wire types and the reducer call sites embedded below.
-/

set_option maxHeartbeats 1000000

/-- Occupant of a board intersection: the closed tagged enumeration
`{Empty, Black, White}` of the data model (design §3, §9). -/
inductive Occupant where
  | Empty : Occupant
  | Black : Occupant
  | White : Occupant
deriving DecidableEq

/-- The opposing color; `Empty` has no opponent. -/
def opponent : Occupant → Occupant
  | .Black => .White
  | .White => .Black
  | .Empty => .Empty

/-- Modelled from the spec: the Board of design §3/§4.1 — a square grid of
side `size` stored as a flat row-major list (`index = y * size + x`).
Only the `occupant` of each Intersection participates in the rules
engine; the display-only Intersection metadata (`moveNumber`, `marker`,
`scoringOwner`, `scoringExplanation`, `playable`) is carried by the wire
type `SpotState` below and does not affect legality or capture. -/
structure Board where
  size : Nat
  cells : List Occupant
deriving DecidableEq

/-- A board is well formed when it holds exactly `size * size` cells
(design §3: a square grid of side `boardSize`). -/
def Board.WF (b : Board) : Prop := b.cells.length = b.size * b.size

/-- Modelled from the spec: `get(x, y)` of §4.1. Coordinates are
zero-indexed, `x` is the column, `y` the row, linear index
`y * size + x`; out-of-bounds reads are `Empty`. -/
def Board.get (b : Board) (x y : Nat) : Occupant :=
  if x < b.size ∧ y < b.size then b.cells.getD (y * b.size + x) .Empty else .Empty

/-- Modelled from the spec: `set(x, y, v)` of §4.1, returning a new board
value (the board is immutable per turn). -/
def Board.set (b : Board) (x y : Nat) (v : Occupant) : Board :=
  ⟨b.size, b.cells.set (y * b.size + x) v⟩

/-- Modelled from the spec: `neighbors(x, y)` of §4.1 — the 2 to 4
edge/corner-aware 4-directional (up/down/left/right) neighbor
coordinates inside the grid. -/
def neighbors (n x y : Nat) : List (Nat × Nat) :=
  ([(x + 1, y), (x, y + 1)] ++ (if x ≠ 0 then [(x - 1, y)] else []) ++
      (if y ≠ 0 then [(x, y - 1)] else [])).filter
    fun q => decide (q.1 < n) && decide (q.2 < n)

/-- The finite set of all in-bounds coordinates of a grid of side `n`. -/
def allCells (n : Nat) : Finset (Nat × Nat) := Finset.range n ×ˢ Finset.range n

/-- All in-bounds coordinates in row-major order. -/
def allCellsList (n : Nat) : List (Nat × Nat) :=
  (List.range (n * n)).map fun i => (i % n, i / n)

/-- Modelled from the spec: the iterative flood fill of §4.2 — an explicit
frontier worklist (no recursion on the board) that, starting from the
`frontier`, accumulates into `visited` every cell reachable through
4-adjacent cells whose occupant is `c`.  `fuel` bounds the iteration
count; `4 * size * size + 1` always suffices (each processed cell pushes
at most 4 neighbors). -/
def floodLoop (b : Board) (c : Occupant) :
    Nat → List (Nat × Nat) → List (Nat × Nat) → List (Nat × Nat)
  | 0, _, visited => visited
  | _ + 1, [], visited => visited
  | fuel + 1, p :: frontier, visited =>
    if p ∈ visited then floodLoop b c fuel frontier visited
    else
      floodLoop b c fuel
        (((neighbors b.size p.1 p.2).filter fun q => decide (b.get q.1 q.2 = c)) ++ frontier)
        (p :: visited)

/-- Modelled from the spec: the distinct empty intersections adjacent to
any stone of the group — its liberties (design §3, §4.2). -/
def groupLiberties (b : Board) (cells : List (Nat × Nat)) : Finset (Nat × Nat) :=
  cells.foldr
    (fun p acc =>
      ((neighbors b.size p.1 p.2).filter fun q => decide (b.get q.1 q.2 = .Empty)).toFinset ∪ acc)
    ∅

/-- The result record of the group & liberty analyzer (design §4.2):
the connected component's cells together with its liberty set. -/
structure GoGroup where
  cells : List (Nat × Nat)
  liberties : Finset (Nat × Nat)

/-- Modelled from the spec: `findGroup(board, x, y)` of §4.2 — the group
containing `(x, y)` (maximal set of same-colored stones connected by
4-adjacency) and its liberties, computed by iterative flood fill; the
empty group when the starting cell's occupant is `Empty`. -/
def findGroup (b : Board) (x y : Nat) : GoGroup :=
  if b.get x y = .Empty then ⟨[], ∅⟩
  else
    let cs := floodLoop b (b.get x y) (4 * b.size * b.size + 1) [(x, y)] []
    ⟨cs, groupLiberties b cs⟩

/-- Modelled from the spec: the cells removed by the capture processor
(§4.4) — the union of the cells of every opponent group adjacent to the
just-played stone at `(x, y)` whose liberty count is zero (groups are
deduplicated by taking a union). -/
def capturedCellsAt (b : Board) (x y : Nat) : Finset (Nat × Nat) :=
  ((neighbors b.size x y).filter fun q => decide (b.get q.1 q.2 = opponent (b.get x y))).foldr
    (fun q acc =>
      if (findGroup b q.1 q.2).liberties.card = 0 then (findGroup b q.1 q.2).cells.toFinset ∪ acc
      else acc)
    ∅

/-- Sets every cell of `s` to `Empty`, leaving all other cells unchanged. -/
def removeCells (b : Board) (s : Finset (Nat × Nat)) : Board :=
  ⟨b.size,
    (List.range b.cells.length).map fun i =>
      if (i % b.size, i / b.size) ∈ s then .Empty else b.cells.getD i .Empty⟩

/-- Modelled from the spec: the capture processor of §4.4 — removes every
zero-liberty opponent group adjacent to the just-played stone at
`(x, y)` and returns the new board together with the count of stones
removed per color (black count first, then white). -/
def captureAt (b : Board) (x y : Nat) : Board × Nat × Nat :=
  let s := capturedCellsAt b x y
  (removeCells b s,
    (s.filter fun p => b.get p.1 p.2 = .Black).card,
    (s.filter fun p => b.get p.1 p.2 = .White).card)

/-- The error kinds of design §7. -/
inductive MoveError where
  | OutOfBounds : MoveError
  | Occupied : MoveError
  | Suicide : MoveError
  | KoViolation : MoveError
  | NotPlayersTurn : MoveError
  | GameFull : MoveError
  | GameOver : MoveError
  | MalformedBoard : MoveError
deriving DecidableEq

/-- Modelled from the spec: the move validator of §4.3, steps 1–7 in
order: bounds check (`OutOfBounds`), occupancy check (`Occupied`),
tentative placement, capture simulation (§4.4), suicide check on the
post-capture board (`Suicide`, unless the capture step removed enemy
stones), simple/situational ko check against the most recent prior
snapshot of `hist` (`KoViolation`), and on success the post-capture
board. -/
def validate (b : Board) (hist : List Board) (x y : Nat) (c : Occupant) :
    Except MoveError Board :=
  if x < b.size ∧ y < b.size then
    if b.get x y = .Empty then
      let placed := b.set x y c
      let res := captureAt placed x y
      if (findGroup res.1 x y).liberties.card = 0 ∧ res.2.1 + res.2.2 = 0 then
        .error .Suicide
      else if hist.head? = some res.1 then .error .KoViolation
      else .ok res.1
    else .error .Occupied
  else .error .OutOfBounds

/-- Komi (design §4.5): the fixed half-integer bonus, default 6.5, added
to White's score. -/
def komi : Rat := 13 / 2

/-- Modelled from the spec: `stonesOnBoard(color)` of §4.5. -/
def stonesOnBoard (b : Board) (c : Occupant) : Nat :=
  (b.cells.filter fun v => decide (v = c)).length

/-- Modelled from the spec: the maximal connected empty region containing
the in-bounds empty cell `(x, y)`, by 4-adjacency flood fill over
`Empty` cells (design §4.5). -/
def emptyRegion (b : Board) (x y : Nat) : List (Nat × Nat) :=
  if b.get x y = .Empty ∧ x < b.size ∧ y < b.size then
    floodLoop b .Empty (4 * b.size * b.size + 1) [(x, y)] []
  else []

/-- Modelled from the spec: enumerate the connected empty regions of the
board, scanning cells in row-major order and flood filling each empty
cell not already covered by a previously found region. -/
def emptyRegions (b : Board) : List (List (Nat × Nat)) :=
  (allCellsList b.size).foldl
    (fun acc p =>
      if b.get p.1 p.2 = .Empty ∧ ∀ r ∈ acc, p ∉ r then emptyRegion b p.1 p.2 :: acc
      else acc)
    []

/-- The stone-colored intersections bordering a connected empty region. -/
def regionStoneBorders (b : Board) (r : List (Nat × Nat)) : List (Nat × Nat) :=
  ((r.map fun p => neighbors b.size p.1 p.2).flatten).filter
    fun q => decide (b.get q.1 q.2 ≠ .Empty)

/-- Modelled from the spec: an empty region is enclosed by `c` when every
stone-colored intersection bordering it is of that single color (and
there is at least one); regions bordering both colors, or bordering the
board edge, score as neutral (dame) — §4.5's dame clause, which the
spec's own area-scoring example requires (the outside region of the
example board borders only Black stones yet scores for nobody). -/
def regionEnclosedBy (b : Board) (r : List (Nat × Nat)) (c : Occupant) : Bool :=
  !(regionStoneBorders b r).isEmpty &&
    (regionStoneBorders b r).all (fun q => decide (b.get q.1 q.2 = c)) &&
    r.all fun p =>
      !(decide (p.1 = 0) || decide (p.2 = 0) ||
        decide (p.1 + 1 = b.size) || decide (p.2 + 1 = b.size))

/-- Modelled from the spec: `enclosedEmptyRegions(color)` of §4.5 — the
number of empty cells lying in regions enclosed by `color`. -/
def enclosedEmptyCount (b : Board) (c : Occupant) : Nat :=
  (((emptyRegions b).filter fun r => regionEnclosedBy b r c).map List.length).sum

/-- Modelled from the spec: area (Chinese) scoring of §4.5 —
`score(color) = stonesOnBoard(color) + enclosedEmptyRegions(color)`,
with komi added to White. -/
def areaScore (b : Board) (c : Occupant) : Rat :=
  ((stonesOnBoard b c + enclosedEmptyCount b c : Nat) : Rat) +
    (if c = .White then komi else 0)

/-- Modelled from the spec: the GameSession of design §3. -/
structure GameSession where
  id : Nat
  boardSize : Nat
  currentBoard : Board
  playerBlack : Nat
  playerWhite : Option Nat
  turn : Occupant
  consecutivePasses : Nat
  gameOver : Bool
  finalScoreBlack : Option Rat
  finalScoreWhite : Option Rat
  boardHistory : List Board
deriving DecidableEq

/-- Modelled from the spec: `pass(session, color)` of §4.3 and §7 — a move
attempted after termination fails `GameOver`; a pass out of turn fails
`NotPlayersTurn`; otherwise `consecutivePasses` is incremented and, when
it reaches 2, the game ends and the scoring engine (§4.5, default area
mode) fills both final scores; otherwise the turn switches. -/
def passMove (s : GameSession) (c : Occupant) : Except MoveError GameSession :=
  if s.gameOver then .error .GameOver
  else if c ≠ s.turn then .error .NotPlayersTurn
  else if 2 ≤ s.consecutivePasses + 1 then
    .ok
      { s with
        consecutivePasses := s.consecutivePasses + 1
        gameOver := true
        finalScoreBlack := some (areaScore s.currentBoard .Black)
        finalScoreWhite := some (areaScore s.currentBoard .White) }
  else .ok { s with consecutivePasses := s.consecutivePasses + 1, turn := opponent s.turn }

/-- Modelled from the spec: `placeStone` of §6/§4.7 — rejects after
termination (`GameOver`) and out of turn (`NotPlayersTurn`), otherwise
validates the placement (§4.3) and, on success, installs the new board,
pushes the previous board onto the ko history, resets the pass counter
and switches the turn. -/
def placeStone (s : GameSession) (c : Occupant) (x y : Nat) :
    Except MoveError GameSession :=
  if s.gameOver then .error .GameOver
  else if c ≠ s.turn then .error .NotPlayersTurn
  else
    match validate s.currentBoard s.boardHistory x y c with
    | .error e => .error e
    | .ok nb =>
      .ok
        { s with
          currentBoard := nb
          boardHistory := s.currentBoard :: s.boardHistory
          consecutivePasses := 0
          turn := opponent s.turn }

/-- The session a host observes after a placement attempt: the new session
on success, the prior session untouched together with the error kind on
failure (design §7: failures never partially mutate the session). -/
def stepPlace (s : GameSession) (c : Occupant) (x y : Nat) :
    GameSession × Option MoveError :=
  match placeStone s c x y with
  | .ok t => (t, none)
  | .error e => (s, some e)

/-- The session a host observes after a pass attempt (see `stepPlace`). -/
def stepPass (s : GameSession) (c : Occupant) : GameSession × Option MoveError :=
  match passMove s c with
  | .ok t => (t, none)
  | .error e => (s, some e)

/-- The wire record of one board intersection, from
`src/client/src/lib/types.ts` (`SpotState`): `occupant`, `move_number`,
`marker`, `scoring_owner`, `scoring_explanation`, `playable`. -/
structure SpotState where
  occupant : Occupant
  move_number : Option Int
  marker : Option String
  scoring_owner : Option Occupant
  scoring_explanation : Option String
  playable : Bool
deriving DecidableEq

/-- The linear index of the cell at column `x`, row `y`, from
`src/client/src/components/spacetime-components/game.tsx`
(`handleIntersectionClick`): `idx = y * boardSize + x`. -/
def linearIndex (boardSize x y : Nat) : Nat := y * boardSize + x

/-- Modelled from the spec: `deserialize` of §4.1/§6 — a serialized board
is a flat row-major sequence of exactly `boardSize²` Intersection
records; deserialization fails with `MalformedBoard` exactly when the
length differs from `boardSize²`. -/
def deserialize (boardSize : Nat) (data : List SpotState) :
    Except MoveError (List SpotState) :=
  if data.length = boardSize * boardSize then .ok data else .error .MalformedBoard

/-- The form values of the game-creation modal, from
`src/client/src/components/spacetime-components/profile.tsx`. -/
structure FormValues where
  playerName : String
  boardSize : Nat

/-- The argument pair the client passes to the `createGame` reducer. -/
structure CreateGameArgs where
  boardSize : Nat
  handicap : Nat

/-- From `src/client/src/components/spacetime-components/profile.tsx`,
`handleCreateGame`: `conn?.reducers.createGame(values.boardSize, 0)`. -/
def handleCreateGame (values : FormValues) : CreateGameArgs :=
  { boardSize := values.boardSize, handicap := 0 }

/-- From `src/client/src/App.tsx`, `createGame`:
`conn.reducers.createGame(9, 0)`. -/
def appCreateGame : CreateGameArgs := { boardSize := 9, handicap := 0 }

/-- Reachability by a path of 4-adjacent stones of the starting cell's
color: the connectivity relation of design §4.2 (diagonal adjacency
never counts). -/
inductive Reach (b : Board) (x y : Nat) : Nat × Nat → Prop where
  | base : Reach b x y (x, y)
  | step {p q : Nat × Nat} : Reach b x y p → q ∈ neighbors b.size p.1 p.2 →
      b.get q.1 q.2 = b.get x y → Reach b x y q

/-- A 2×2 board on which White at (0,0) is a suicide: Black holds (1,0)
and (0,1). -/
def bSuicide : Board := ⟨2, [.Empty, .Black, .Black, .Empty]⟩

/-- A 2×2 board on which Black at (1,1) captures both White stones. -/
def bCap : Board := ⟨2, [.Black, .White, .White, .Empty]⟩

/-- Ko scenario, 4×4 board: the position before Black's capture at (2,1). -/
def koP0 : Board :=
  ⟨4, [.Empty, .Black, .White, .Empty,
       .Black, .White, .Empty, .White,
       .Empty, .Black, .White, .Empty,
       .Empty, .Empty, .Empty, .Empty]⟩

/-- Ko scenario: the position after Black captured White (1,1) by playing
(2,1); White recapturing at (1,1) would recreate `koP0`. -/
def koP1 : Board :=
  ⟨4, [.Empty, .Black, .White, .Empty,
       .Black, .Empty, .Black, .White,
       .Empty, .Black, .White, .Empty,
       .Empty, .Empty, .Empty, .Empty]⟩

/-- Ko scenario: `koP1` after an intervening White move at (0,3). -/
def koP2 : Board :=
  ⟨4, [.Empty, .Black, .White, .Empty,
       .Black, .Empty, .Black, .White,
       .Empty, .Black, .White, .Empty,
       .White, .Empty, .Empty, .Empty]⟩

/-- Ko scenario: `koP2` after an intervening Black move at (3,3); White
recapturing at (1,1) from here no longer recreates the prior snapshot. -/
def koP3 : Board :=
  ⟨4, [.Empty, .Black, .White, .Empty,
       .Black, .Empty, .Black, .White,
       .Empty, .Black, .White, .Empty,
       .White, .Empty, .Empty, .Black]⟩

/-- Linear indices of the 10 Black stones of the spec's area-scoring
example: 8 stones enclosing the 3-cell region (4,4),(5,4),(6,4) plus
stones at (0,0) and (8,8). -/
def exBlackIdx : List Nat := [0, 31, 32, 33, 39, 43, 49, 50, 51, 80]

/-- The spec's area-scoring example: a 9×9 board where Black's 10 stones
enclose a 3-cell empty region touched by no White stone. -/
def exampleBoard : Board :=
  ⟨9, (List.range 81).map fun i => if i ∈ exBlackIdx then .Black else .Empty⟩

/-- An empty 2×2 board. -/
def emptyB2 : Board := ⟨2, [.Empty, .Empty, .Empty, .Empty]⟩

/-- A two-player in-progress session over the empty 2×2 board, Black to
move. -/
def ses0 : GameSession := ⟨1, 2, emptyB2, 7, some 8, .Black, 0, false, none, none, []⟩

/-- `ses0` after one pass by Black: White to move, one consecutive pass. -/
def ses1 : GameSession := ⟨1, 2, emptyB2, 7, some 8, .White, 1, false, none, none, []⟩

/-- A terminated session. -/
def sesOver : GameSession :=
  ⟨1, 2, emptyB2, 7, some 8, .Black, 2, true, some 0, some komi, []⟩

instance : DecidableEq (Except MoveError Board) := fun a b =>
  match a, b with
  | .ok x, .ok y => decidable_of_iff (x = y) (by simp)
  | .error e, .error f => decidable_of_iff (e = f) (by simp)
  | .ok _, .error _ => isFalse (by simp)
  | .error _, .ok _ => isFalse (by simp)

instance : DecidableEq (Except MoveError GameSession) := fun a b =>
  match a, b with
  | .ok x, .ok y => decidable_of_iff (x = y) (by simp)
  | .error e, .error f => decidable_of_iff (e = f) (by simp)
  | .ok _, .error _ => isFalse (by simp)
  | .error _, .ok _ => isFalse (by simp)

lemma mem_neighbors_bounds {n x y : Nat} {q : Nat × Nat} (h : q ∈ neighbors n x y) :
    q.1 < n ∧ q.2 < n := by
  simp only [neighbors, List.mem_filter, Bool.and_eq_true, decide_eq_true_eq] at h
  exact h.2

lemma neighbors_length_le (n x y : Nat) : (neighbors n x y).length ≤ 4 := by
  refine le_trans (List.length_filter_le _ _) ?_
  by_cases hx : x = 0 <;> by_cases hy : y = 0 <;> simp [hx, hy]

lemma get_ne_empty_bounds {b : Board} {x y : Nat} (h : b.get x y ≠ .Empty) :
    x < b.size ∧ y < b.size := by
  by_contra hc
  exact h (by simp [Board.get, if_neg hc])

lemma index_lt_of_bounds {x y n : Nat} (hx : x < n) (hy : y < n) :
    y * n + x < n * n := by
  calc y * n + x < y * n + n := by omega
  _ = (y + 1) * n := by ring
  _ ≤ n * n := Nat.mul_le_mul_right _ (by omega)

lemma get_set_self {b : Board} {x y : Nat} (v : Occupant)
    (hwf : b.WF) (hx : x < b.size) (hy : y < b.size) :
    (b.set x y v).get x y = v := by
  have hlt : y * b.size + x < b.cells.length := by
    rw [hwf]; exact index_lt_of_bounds hx hy
  simp only [Board.set, Board.get, if_pos (And.intro hx hy)]
  rw [List.getD_eq_getElem?_getD, List.getElem?_set_self',
    List.getElem?_eq_getElem hlt]
  rfl

lemma set_WF {b : Board} {x y : Nat} (v : Occupant) (hwf : b.WF) :
    (b.set x y v).WF := by
  simpa [Board.WF, Board.set, List.length_set] using hwf

lemma flood_invariant (b : Board) (c : Occupant) (P : Nat × Nat → Prop)
    (hstep : ∀ p, P p → ∀ q ∈ neighbors b.size p.1 p.2, b.get q.1 q.2 = c → P q) :
    ∀ (fuel : Nat) (frontier visited : List (Nat × Nat)),
      (∀ p ∈ frontier, P p) → (∀ p ∈ visited, P p) →
      ∀ p ∈ floodLoop b c fuel frontier visited, P p := by
  intro fuel
  induction fuel with
  | zero => intro frontier visited _ hv p hp; exact hv p hp
  | succ fuel ih =>
    intro frontier visited hf hv p hp
    match frontier with
    | [] => exact hv p hp
    | q :: fr =>
      rw [floodLoop] at hp
      by_cases hq : q ∈ visited
      · rw [if_pos hq] at hp
        exact ih fr visited (fun r hr => hf r (List.mem_cons_of_mem _ hr)) hv p hp
      · rw [if_neg hq] at hp
        refine ih _ _ ?_ ?_ p hp
        · intro r hr
          rcases List.mem_append.mp hr with hr | hr
          · rcases List.mem_filter.mp hr with ⟨hr1, hr2⟩
            exact hstep q (hf q (List.mem_cons_self q fr)) r hr1 (of_decide_eq_true hr2)
          · exact hf r (List.mem_cons_of_mem _ hr)
        · intro r hr
          rcases List.mem_cons.mp hr with hr | hr
          · exact hr ▸ hf q (List.mem_cons_self q fr)
          · exact hv r hr

lemma floodLoop_zero (b : Board) (c : Occupant) (frontier visited : List (Nat × Nat)) :
    floodLoop b c 0 frontier visited = visited := rfl

lemma floodLoop_nil (b : Board) (c : Occupant) (fuel : Nat) (visited : List (Nat × Nat)) :
    floodLoop b c (fuel + 1) [] visited = visited := rfl

lemma floodLoop_cons (b : Board) (c : Occupant) (fuel : Nat) (p : Nat × Nat)
    (frontier visited : List (Nat × Nat)) :
    floodLoop b c (fuel + 1) (p :: frontier) visited =
      if p ∈ visited then floodLoop b c fuel frontier visited
      else
        floodLoop b c fuel
          (((neighbors b.size p.1 p.2).filter fun q => decide (b.get q.1 q.2 = c)) ++ frontier)
          (p :: visited) := rfl

lemma mem_allCells {n : Nat} {p : Nat × Nat} : p ∈ allCells n ↔ p.1 < n ∧ p.2 < n := by
  simp [allCells, Finset.mem_product]

lemma card_allCells (n : Nat) : (allCells n).card = n * n := by
  simp [allCells]

lemma flood_sufficient (b : Board) (c : Occupant) :
    ∀ (fuel : Nat) (frontier visited : List (Nat × Nat)),
      (∀ p ∈ frontier, p.1 < b.size ∧ p.2 < b.size) →
      (∀ p ∈ visited, ∀ q ∈ neighbors b.size p.1 p.2, b.get q.1 q.2 = c →
          q ∈ visited ∨ q ∈ frontier) →
      4 * ((allCells b.size).filter fun p => p ∉ visited).card + frontier.length ≤ fuel →
      (∀ p ∈ visited, p ∈ floodLoop b c fuel frontier visited) ∧
      (∀ p ∈ frontier, p ∈ floodLoop b c fuel frontier visited) ∧
      (∀ p ∈ floodLoop b c fuel frontier visited, ∀ q ∈ neighbors b.size p.1 p.2,
          b.get q.1 q.2 = c → q ∈ floodLoop b c fuel frontier visited) := by
  intro fuel
  induction fuel with
  | zero =>
    intro frontier visited _ hinv hm
    have hfr : frontier = [] := List.length_eq_zero.mp (by omega)
    subst hfr
    rw [floodLoop_zero]
    refine ⟨fun p hp => hp, by simp, ?_⟩
    intro p hp q hq hqc
    rcases hinv p hp q hq hqc with h | h
    · exact h
    · simp at h
  | succ fuel ih =>
    intro frontier visited hb hinv hm
    match frontier with
    | [] =>
      rw [floodLoop_nil]
      refine ⟨fun p hp => hp, by simp, ?_⟩
      intro p hp q hq hqc
      rcases hinv p hp q hq hqc with h | h
      · exact h
      · simp at h
    | p :: fr =>
      rw [floodLoop_cons]
      by_cases hp : p ∈ visited
      · rw [if_pos hp]
        have hb' : ∀ r ∈ fr, r.1 < b.size ∧ r.2 < b.size :=
          fun r hr => hb r (List.mem_cons_of_mem _ hr)
        have hinv' : ∀ r ∈ visited, ∀ q ∈ neighbors b.size r.1 r.2, b.get q.1 q.2 = c →
            q ∈ visited ∨ q ∈ fr := by
          intro r hr q hq hqc
          rcases hinv r hr q hq hqc with h | h
          · exact Or.inl h
          · rcases List.mem_cons.mp h with h | h
            · exact Or.inl (h ▸ hp)
            · exact Or.inr h
        have hm' : 4 * ((allCells b.size).filter fun r => r ∉ visited).card + fr.length ≤
            fuel := by
          have := hm
          simp only [List.length_cons] at this
          omega
        obtain ⟨h1, h2, h3⟩ := ih fr visited hb' hinv' hm'
        refine ⟨h1, ?_, h3⟩
        intro r hr
        rcases List.mem_cons.mp hr with h | h
        · exact h ▸ h1 p hp
        · exact h2 r h
      · rw [if_neg hp]
        have hpb : p.1 < b.size ∧ p.2 < b.size := hb p (List.mem_cons_self p fr)
        have hpAll : p ∈ allCells b.size := mem_allCells.mpr hpb
        have hb' : ∀ r ∈
            ((neighbors b.size p.1 p.2).filter fun q => decide (b.get q.1 q.2 = c)) ++ fr,
            r.1 < b.size ∧ r.2 < b.size := by
          intro r hr
          rcases List.mem_append.mp hr with h | h
          · exact mem_neighbors_bounds (List.mem_filter.mp h).1
          · exact hb r (List.mem_cons_of_mem _ h)
        have hinv' : ∀ r ∈ p :: visited, ∀ q ∈ neighbors b.size r.1 r.2,
            b.get q.1 q.2 = c →
            q ∈ p :: visited ∨
              q ∈ ((neighbors b.size p.1 p.2).filter
                    fun q => decide (b.get q.1 q.2 = c)) ++ fr := by
          intro r hr q hq hqc
          rcases List.mem_cons.mp hr with h | h
          · subst h
            exact Or.inr (List.mem_append_left _
              (List.mem_filter.mpr ⟨hq, decide_eq_true hqc⟩))
          · rcases hinv r h q hq hqc with h2 | h2
            · exact Or.inl (List.mem_cons_of_mem _ h2)
            · rcases List.mem_cons.mp h2 with h2 | h2
              · exact Or.inl (h2 ▸ List.mem_cons_self p visited)
              · exact Or.inr (List.mem_append_right _ h2)
        have hCp : p ∈ (allCells b.size).filter fun r => r ∉ visited :=
          Finset.mem_filter.mpr ⟨hpAll, hp⟩
        have hCpos : 1 ≤ ((allCells b.size).filter fun r => r ∉ visited).card :=
          Finset.card_pos.mpr ⟨p, hCp⟩
        have hCe : ((allCells b.size).filter fun r => r ∉ p :: visited) =
            ((allCells b.size).filter fun r => r ∉ visited).erase p := by
          ext q
          simp only [Finset.mem_filter, Finset.mem_erase, List.mem_cons, not_or]
          tauto
        have hCcard : ((allCells b.size).filter fun r => r ∉ p :: visited).card =
            ((allCells b.size).filter fun r => r ∉ visited).card - 1 := by
          rw [hCe, Finset.card_erase_of_mem hCp]
        have hn4 : ((neighbors b.size p.1 p.2).filter
            fun q => decide (b.get q.1 q.2 = c)).length ≤ 4 :=
          le_trans (List.length_filter_le _ _) (neighbors_length_le _ _ _)
        have hm' : 4 * ((allCells b.size).filter fun r => r ∉ p :: visited).card +
            (((neighbors b.size p.1 p.2).filter
              fun q => decide (b.get q.1 q.2 = c)) ++ fr).length ≤ fuel := by
          rw [List.length_append]
          simp only [List.length_cons] at hm
          omega
        obtain ⟨h1, h2, h3⟩ := ih _ _ hb' hinv' hm'
        refine ⟨?_, ?_, h3⟩
        · exact fun r hr => h1 r (List.mem_cons_of_mem _ hr)
        · intro r hr
          rcases List.mem_cons.mp hr with h | h
          · exact h ▸ h1 p (List.mem_cons_self p visited)
          · exact h2 r (List.mem_append_right _ h)

lemma findGroup_cells_eq (b : Board) {x y : Nat} (h : ¬ b.get x y = .Empty) :
    (findGroup b x y).cells =
      floodLoop b (b.get x y) (4 * b.size * b.size + 1) [(x, y)] [] := by
  rw [findGroup, if_neg h]

lemma filter_not_mem_nil (n : Nat) :
    ((allCells n).filter fun p => p ∉ ([] : List (Nat × Nat))) = allCells n :=
  Finset.filter_true_of_mem (by simp)

lemma findGroup_start_spec (b : Board) {x y : Nat} (h : ¬ b.get x y = .Empty) :
    (x, y) ∈ (findGroup b x y).cells ∧
      (∀ p ∈ (findGroup b x y).cells, ∀ q ∈ neighbors b.size p.1 p.2,
        b.get q.1 q.2 = b.get x y → q ∈ (findGroup b x y).cells) := by
  have hbnd := get_ne_empty_bounds h
  have hm : 4 * ((allCells b.size).filter
        fun p => p ∉ ([] : List (Nat × Nat))).card +
      ([((x, y))] : List (Nat × Nat)).length ≤ 4 * b.size * b.size + 1 := by
    rw [filter_not_mem_nil, card_allCells, List.length_singleton, Nat.mul_assoc]
  obtain ⟨_, h2, h3⟩ := flood_sufficient b (b.get x y) (4 * b.size * b.size + 1)
    [(x, y)] [] (by intro p hp; simp at hp; subst hp; exact hbnd) (by simp) hm
  rw [findGroup_cells_eq b h]
  exact ⟨h2 (x, y) (List.mem_cons_self _ _), h3⟩

lemma findGroup_mem_self (b : Board) {x y : Nat} (h : ¬ b.get x y = .Empty) :
    (x, y) ∈ (findGroup b x y).cells := (findGroup_start_spec b h).1

lemma findGroup_closed (b : Board) (x y : Nat) :
    ∀ p ∈ (findGroup b x y).cells, ∀ q ∈ neighbors b.size p.1 p.2,
      b.get q.1 q.2 = b.get x y → q ∈ (findGroup b x y).cells := by
  by_cases h : b.get x y = .Empty
  · simp [findGroup, h]
  · exact (findGroup_start_spec b h).2

lemma findGroup_color (b : Board) (x y : Nat) :
    ∀ p ∈ (findGroup b x y).cells, b.get p.1 p.2 = b.get x y := by
  by_cases h : b.get x y = .Empty
  · simp [findGroup, h]
  · rw [findGroup_cells_eq b h]
    exact flood_invariant b (b.get x y) (fun p => b.get p.1 p.2 = b.get x y)
      (fun p _ q _ hqc => hqc) _ _ _ (by simp) (by simp)

lemma findGroup_reach (b : Board) (x y : Nat) :
    ∀ p ∈ (findGroup b x y).cells, Reach b x y p := by
  by_cases h : b.get x y = .Empty
  · simp [findGroup, h]
  · rw [findGroup_cells_eq b h]
    exact flood_invariant b (b.get x y) (Reach b x y)
      (fun p hp q hq hqc => Reach.step hp hq hqc) _ _ _
      (by intro p hp; simp at hp; subst hp; exact Reach.base) (by simp)

/-- C8: for every board and coordinate, `findGroup` returns a cell set
that is empty when the starting cell is `Empty`, contains `(x, y)`
otherwise, is closed under 4-directional same-color adjacency (no
same-colored stone adjacent to a member lies outside the set), and whose
every member is reachable from `(x, y)` by a 4-adjacent same-color path
(so diagonal-only connections are never included). -/
theorem findGroup_spec (b : Board) (x y : Nat) :
    (b.get x y = .Empty → (findGroup b x y).cells = []) ∧
    (b.get x y ≠ .Empty → (x, y) ∈ (findGroup b x y).cells) ∧
    (∀ p ∈ (findGroup b x y).cells, ∀ q ∈ neighbors b.size p.1 p.2,
        b.get q.1 q.2 = b.get x y → q ∈ (findGroup b x y).cells) ∧
    (∀ p ∈ (findGroup b x y).cells, Reach b x y p) := by
  refine ⟨fun h => by simp [findGroup, h], fun h => findGroup_mem_self b h,
    findGroup_closed b x y, findGroup_reach b x y⟩

/-- Witness for C8 on a concrete 2×2 board with a two-stone Black group:
the start cell is in its group and closure pulls in the adjacent
same-colored stone. -/
theorem findGroup_spec_witness :
    (0, 0) ∈ (findGroup (Board.mk 2 [.Black, .Black, .Empty, .White]) 0 0).cells ∧
    (1, 0) ∈ (findGroup (Board.mk 2 [.Black, .Black, .Empty, .White]) 0 0).cells := by
  refine ⟨(findGroup_spec (Board.mk 2 [.Black, .Black, .Empty, .White]) 0 0).2.1
    (by decide), ?_⟩
  exact (findGroup_spec (Board.mk 2 [.Black, .Black, .Empty, .White]) 0 0).2.2.1
    (0, 0) (by decide) (1, 0) (by decide) (by decide)

lemma index_mod_div {x n : Nat} (y : Nat) (hx : x < n) :
    (y * n + x) % n = x ∧ (y * n + x) / n = y := by
  constructor
  · rw [Nat.add_comm, Nat.add_mul_mod_self_right, Nat.mod_eq_of_lt hx]
  · rw [Nat.add_comm, Nat.add_mul_div_right _ _ (by omega : 0 < n),
      Nat.div_eq_of_lt hx]
    omega

lemma removeCells_get (b : Board) (s : Finset (Nat × Nat)) {x y : Nat}
    (hx : x < b.size) (hy : y < b.size) :
    (removeCells b s).get x y = if (x, y) ∈ s then .Empty else b.get x y := by
  obtain ⟨hmod, hdiv⟩ := index_mod_div (n := b.size) (x := x) y hx
  by_cases hi : y * b.size + x < b.cells.length
  · simp only [removeCells, Board.get, if_pos (And.intro hx hy)]
    rw [List.getD_eq_getElem?_getD, List.getElem?_map,
      List.getElem?_range (by simpa using hi)]
    simp [hmod, hdiv]
  · have hlen : b.cells.length ≤ y * b.size + x := by omega
    simp only [removeCells, Board.get, if_pos (And.intro hx hy)]
    rw [List.getD_eq_getElem?_getD, List.getElem?_map,
      List.getElem?_eq_none (by simpa using hlen),
      List.getD_eq_getElem?_getD, List.getElem?_eq_none hlen]
    simp

lemma mem_foldr_capture (b : Board) (L : List (Nat × Nat)) (p : Nat × Nat) :
    (p ∈ L.foldr
        (fun q acc =>
          if (findGroup b q.1 q.2).liberties.card = 0 then
            (findGroup b q.1 q.2).cells.toFinset ∪ acc
          else acc) ∅) ↔
      ∃ q ∈ L, (findGroup b q.1 q.2).liberties.card = 0 ∧
        p ∈ (findGroup b q.1 q.2).cells := by
  induction L with
  | nil => simp
  | cons q L ih =>
    simp only [List.foldr_cons]
    by_cases hq : (findGroup b q.1 q.2).liberties.card = 0
    · rw [if_pos hq]
      simp only [Finset.mem_union, List.mem_toFinset, ih, List.mem_cons]
      constructor
      · rintro (h | ⟨r, hr, hl, hp⟩)
        · exact ⟨q, Or.inl rfl, hq, h⟩
        · exact ⟨r, Or.inr hr, hl, hp⟩
      · rintro ⟨r, hr | hr, hl, hp⟩
        · exact Or.inl (hr ▸ hp)
        · exact Or.inr ⟨r, hr, hl, hp⟩
    · rw [if_neg hq]
      rw [ih]
      constructor
      · rintro ⟨r, hr, hl, hp⟩
        exact ⟨r, List.mem_cons_of_mem _ hr, hl, hp⟩
      · rintro ⟨r, hr, hl, hp⟩
        rcases List.mem_cons.mp hr with h | h
        · exact absurd (h ▸ hl) hq
        · exact ⟨r, h, hl, hp⟩

lemma mem_capturedCellsAt {b : Board} {x y : Nat} {p : Nat × Nat} :
    p ∈ capturedCellsAt b x y ↔
      ∃ q ∈ neighbors b.size x y, b.get q.1 q.2 = opponent (b.get x y) ∧
        (findGroup b q.1 q.2).liberties.card = 0 ∧
        p ∈ (findGroup b q.1 q.2).cells := by
  rw [capturedCellsAt, mem_foldr_capture]
  constructor
  · rintro ⟨q, hq, hl, hp⟩
    rcases List.mem_filter.mp hq with ⟨hq1, hq2⟩
    exact ⟨q, hq1, of_decide_eq_true hq2, hl, hp⟩
  · rintro ⟨q, hq1, hq2, hl, hp⟩
    exact ⟨q, List.mem_filter.mpr ⟨hq1, decide_eq_true hq2⟩, hl, hp⟩

lemma opponent_ne_empty {c : Occupant} (hc : c ≠ .Empty) : opponent c ≠ .Empty := by
  cases c with
  | Empty => exact absurd rfl hc
  | Black => exact fun h => by cases h
  | White => exact fun h => by cases h

lemma capturedCellsAt_color {b : Board} {x y : Nat} {p : Nat × Nat}
    (hp : p ∈ capturedCellsAt b x y) :
    b.get p.1 p.2 = opponent (b.get x y) := by
  obtain ⟨q, _, hqc, _, hpg⟩ := mem_capturedCellsAt.mp hp
  rw [findGroup_color b q.1 q.2 p hpg, hqc]

/-- C3: for every board and accepted placement of `c` at the empty
in-bounds cell `(x, y)`, every opponent group adjacent to the new stone
whose recomputed liberty count is zero has all of its member cells reset
to `Empty`; every in-bounds cell lying in no zero-liberty adjacent
opponent group keeps its occupancy; and the capture processor returns
the count of stones removed of each color. -/
theorem captureAt_spec (b : Board) (x y : Nat) (c : Occupant)
    (hwf : b.WF) (hx : x < b.size) (hy : y < b.size)
    (hemp : b.get x y = .Empty) (hc : c ≠ .Empty) :
    (∀ q ∈ neighbors b.size x y,
        (b.set x y c).get q.1 q.2 = opponent c →
        (findGroup (b.set x y c) q.1 q.2).liberties.card = 0 →
        ∀ p ∈ (findGroup (b.set x y c) q.1 q.2).cells,
          (captureAt (b.set x y c) x y).1.get p.1 p.2 = .Empty) ∧
    (∀ p : Nat × Nat, p.1 < b.size → p.2 < b.size →
        (∀ q ∈ neighbors b.size x y,
          (b.set x y c).get q.1 q.2 = opponent c →
          (findGroup (b.set x y c) q.1 q.2).liberties.card = 0 →
          p ∉ (findGroup (b.set x y c) q.1 q.2).cells) →
        (captureAt (b.set x y c) x y).1.get p.1 p.2 = (b.set x y c).get p.1 p.2) ∧
    (captureAt (b.set x y c) x y).2.1 =
      ((allCells b.size).filter fun p =>
        (b.set x y c).get p.1 p.2 = .Black ∧
        (captureAt (b.set x y c) x y).1.get p.1 p.2 ≠ (b.set x y c).get p.1 p.2).card ∧
    (captureAt (b.set x y c) x y).2.2 =
      ((allCells b.size).filter fun p =>
        (b.set x y c).get p.1 p.2 = .White ∧
        (captureAt (b.set x y c) x y).1.get p.1 p.2 ≠ (b.set x y c).get p.1 p.2).card := by
  have hbp : (b.set x y c).get x y = c := get_set_self c hwf hx hy
  have hcap1 : (captureAt (b.set x y c) x y).1 =
      removeCells (b.set x y c) (capturedCellsAt (b.set x y c) x y) := rfl
  have key : ∀ col : Occupant, col ≠ .Empty →
      ((capturedCellsAt (b.set x y c) x y).filter
          fun p => (b.set x y c).get p.1 p.2 = col) =
        ((allCells b.size).filter fun p =>
          (b.set x y c).get p.1 p.2 = col ∧
          (captureAt (b.set x y c) x y).1.get p.1 p.2 ≠ (b.set x y c).get p.1 p.2) := by
    intro col hcol
    ext p
    simp only [Finset.mem_filter]
    constructor
    · rintro ⟨hps, hcolp⟩
      have hpb := get_ne_empty_bounds
        (show (b.set x y c).get p.1 p.2 ≠ .Empty by rw [hcolp]; exact hcol)
      refine ⟨mem_allCells.mpr hpb, hcolp, ?_⟩
      rw [hcap1, removeCells_get _ _ hpb.1 hpb.2, if_pos hps, hcolp]
      exact fun h => hcol h.symm
    · rintro ⟨hall, hcolp, hch⟩
      have hpb := mem_allCells.mp hall
      by_cases hps : p ∈ capturedCellsAt (b.set x y c) x y
      · exact ⟨hps, hcolp⟩
      · exact absurd (by rw [hcap1, removeCells_get (b.set x y c) _ hpb.1 hpb.2, if_neg hps]) hch
  refine ⟨?_, ?_, ?_, ?_⟩
  · intro q hqn hqc hql p hpg
    have hps : p ∈ capturedCellsAt (b.set x y c) x y :=
      mem_capturedCellsAt.mpr ⟨q, hqn, by rw [hbp]; exact hqc, hql, hpg⟩
    have hpc : (b.set x y c).get p.1 p.2 = opponent c := by
      have h := capturedCellsAt_color hps
      rwa [hbp] at h
    have hpb := get_ne_empty_bounds
      (show (b.set x y c).get p.1 p.2 ≠ .Empty by rw [hpc]; exact opponent_ne_empty hc)
    rw [hcap1, removeCells_get _ _ hpb.1 hpb.2, if_pos hps]
  · intro p hp1 hp2 hnone
    have hpns : p ∉ capturedCellsAt (b.set x y c) x y := by
      intro hps
      obtain ⟨q, hqn, hqc, hql, hpg⟩ := mem_capturedCellsAt.mp hps
      exact hnone q hqn (by rwa [hbp] at hqc) hql hpg
    rw [hcap1, removeCells_get (b.set x y c) _ hp1 hp2, if_neg hpns]
  · show ((capturedCellsAt (b.set x y c) x y).filter
        fun p => (b.set x y c).get p.1 p.2 = .Black).card = _
    rw [key .Black (by decide)]
  · show ((capturedCellsAt (b.set x y c) x y).filter
        fun p => (b.set x y c).get p.1 p.2 = .White).card = _
    rw [key .White (by decide)]

/-- Witness for C3 on the concrete 2×2 board `bCap`: Black's placement at
(1,1) removes the zero-liberty White stone at (1,0) while the Black
stone at (0,0), which lies in no captured group, is untouched. -/
theorem captureAt_spec_witness :
    (captureAt (bCap.set 1 1 .Black) 1 1).1.get 1 0 = .Empty ∧
    (captureAt (bCap.set 1 1 .Black) 1 1).1.get 0 0 = (bCap.set 1 1 .Black).get 0 0 := by
  constructor
  · exact (captureAt_spec bCap 1 1 .Black rfl (by decide) (by decide) (by decide)
      (by decide)).1 (1, 0) (by decide) (by decide) (by decide) (1, 0) (by decide)
  · exact (captureAt_spec bCap 1 1 .Black rfl (by decide) (by decide) (by decide)
      (by decide)).2.1 (0, 0) (by decide) (by decide) (by decide)

lemma validate_eq_of_legal_checks (b : Board) (hist : List Board) (x y : Nat)
    (c : Occupant) (hx : x < b.size) (hy : y < b.size) (hemp : b.get x y = .Empty) :
    validate b hist x y c =
      if (findGroup (captureAt (b.set x y c) x y).1 x y).liberties.card = 0 ∧
          (captureAt (b.set x y c) x y).2.1 + (captureAt (b.set x y c) x y).2.2 = 0 then
        .error .Suicide
      else if hist.head? = some (captureAt (b.set x y c) x y).1 then
        .error .KoViolation
      else .ok (captureAt (b.set x y c) x y).1 := by
  simp only [validate]
  rw [if_pos (And.intro hx hy), if_pos hemp]

/-- C1: for every board, history, in-bounds empty coordinate and color,
if after the placement and the capture simulation the new stone's own
group has zero liberties on the post-capture board and no enemy stones
were captured, `validate` rejects the move with `Suicide`; if the
placement captured at least one enemy stone it is never rejected as
`Suicide`. -/
theorem validate_suicide_spec (b : Board) (hist : List Board) (x y : Nat)
    (c : Occupant) (hx : x < b.size) (hy : y < b.size) (hemp : b.get x y = .Empty) :
    ((findGroup (captureAt (b.set x y c) x y).1 x y).liberties.card = 0 →
      (captureAt (b.set x y c) x y).2.1 + (captureAt (b.set x y c) x y).2.2 = 0 →
      validate b hist x y c = .error .Suicide) ∧
    ((captureAt (b.set x y c) x y).2.1 + (captureAt (b.set x y c) x y).2.2 ≠ 0 →
      validate b hist x y c ≠ .error .Suicide) := by
  rw [validate_eq_of_legal_checks b hist x y c hx hy hemp]
  constructor
  · intro h1 h2
    rw [if_pos (And.intro h1 h2)]
  · intro h2
    rw [if_neg (fun hcon => h2 hcon.2)]
    split
    · exact fun h => by cases h
    · exact fun h => by cases h

/-- Witness for C1: on the 2×2 board `bSuicide`, White at (0,0) leaves its
own group with no liberties and captures nothing, so the move is
rejected as `Suicide`; on `bCap`, Black at (1,1) captures two White
stones and is not rejected as `Suicide`. -/
theorem validate_suicide_spec_witness :
    validate bSuicide [] 0 0 .White = .error .Suicide ∧
    validate bCap [] 1 1 .Black ≠ .error .Suicide := by
  constructor
  · exact (validate_suicide_spec bSuicide [] 0 0 .White (by decide) (by decide)
      (by decide)).1 (by decide) (by decide)
  · exact (validate_suicide_spec bCap [] 1 1 .Black (by decide) (by decide)
      (by decide)).2 (by decide)

/-- C2: for every board and history, a placement passing the earlier
checks whose post-capture board is identical to the single most recent
prior snapshot is rejected with `KoViolation` (simple/situational ko);
whenever the post-capture board differs from that snapshot — e.g. after
an intervening move elsewhere has changed the position — the same
placement is accepted. -/
theorem validate_ko_spec (b : Board) (hist : List Board) (x y : Nat) (c : Occupant)
    (hx : x < b.size) (hy : y < b.size) (hemp : b.get x y = .Empty)
    (hns : ¬ ((findGroup (captureAt (b.set x y c) x y).1 x y).liberties.card = 0 ∧
        (captureAt (b.set x y c) x y).2.1 + (captureAt (b.set x y c) x y).2.2 = 0)) :
    (hist.head? = some (captureAt (b.set x y c) x y).1 →
      validate b hist x y c = .error .KoViolation) ∧
    (hist.head? ≠ some (captureAt (b.set x y c) x y).1 →
      validate b hist x y c = .ok (captureAt (b.set x y c) x y).1) := by
  rw [validate_eq_of_legal_checks b hist x y c hx hy hemp, if_neg hns]
  exact ⟨fun h => by rw [if_pos h], fun h => by rw [if_neg h]⟩

/-- Witness for C2: on the 4×4 ko boards, White recapturing at (1,1) right
after Black's ko capture recreates the prior snapshot `koP0` and is
rejected with `KoViolation`; after two intervening moves elsewhere the
same recapture no longer matches the most recent snapshot and is
accepted. -/
theorem validate_ko_spec_witness :
    validate koP1 [koP0] 1 1 .White = .error .KoViolation ∧
    validate koP3 [koP2, koP1, koP0] 1 1 .White ≠ .error .KoViolation := by
  constructor
  · exact (validate_ko_spec koP1 [koP0] 1 1 .White (by decide) (by decide)
      (by decide) (by decide)).1 (by decide)
  · have h := (validate_ko_spec koP3 [koP2, koP1, koP0] 1 1 .White (by decide)
      (by decide) (by decide) (by decide)).2 (by decide)
    rw [h]
    exact fun hcon => by cases hcon

/-- C4: for every in-progress session, passing out of turn fails with
`NotPlayersTurn`; a first pass increments `consecutivePasses` and
switches the turn; a second consecutive pass ends the game and fills
both final scores via the scoring engine; and a pass followed by an
accepted placement resets the pass counter with the game still in
progress. -/
theorem passMove_spec (s : GameSession) (c : Occupant) (hgo : s.gameOver = false) :
    (c ≠ s.turn → passMove s c = .error .NotPlayersTurn) ∧
    (c = s.turn → s.consecutivePasses = 0 →
      passMove s c = .ok { s with consecutivePasses := 1, turn := opponent s.turn }) ∧
    (c = s.turn → 1 ≤ s.consecutivePasses →
      ∃ t, passMove s c = .ok t ∧ t.gameOver = true ∧
        t.consecutivePasses = s.consecutivePasses + 1 ∧
        t.finalScoreBlack = some (areaScore s.currentBoard .Black) ∧
        t.finalScoreWhite = some (areaScore s.currentBoard .White)) ∧
    (∀ t u : GameSession, ∀ c2 : Occupant, ∀ x y : Nat,
      passMove s c = .ok t → placeStone t c2 x y = .ok u →
      u.consecutivePasses = 0 ∧ u.gameOver = false) := by
  refine ⟨?_, ?_, ?_, ?_⟩
  · intro h
    simp [passMove, hgo, h]
  · intro h h0
    simp [passMove, hgo, h, h0]
  · intro h h1
    refine ⟨{ s with
        consecutivePasses := s.consecutivePasses + 1
        gameOver := true
        finalScoreBlack := some (areaScore s.currentBoard .Black)
        finalScoreWhite := some (areaScore s.currentBoard .White) },
      ?_, rfl, rfl, rfl, rfl⟩
    simp [passMove, hgo, h, show 2 ≤ s.consecutivePasses + 1 by omega]
  · intro t u c2 x y _ hpl
    by_cases hgt : t.gameOver = true
    · rw [placeStone, if_pos hgt] at hpl
      exact (Except.noConfusion hpl)
    · rw [placeStone, if_neg hgt] at hpl
      by_cases hc2 : c2 ≠ t.turn
      · rw [if_pos hc2] at hpl
        exact (Except.noConfusion hpl)
      · rw [if_neg hc2] at hpl
        cases hv : validate t.currentBoard t.boardHistory x y c2 with
        | error e => rw [hv] at hpl; exact (Except.noConfusion hpl)
        | ok nb =>
          rw [hv] at hpl
          injection hpl with h
          subst h
          exact ⟨rfl, by simpa using hgt⟩

/-- Witness for C4: on the concrete sessions `ses0` (Black to move, no
passes) and `ses1` (White to move after one pass), a wrong-color pass is
rejected and the second consecutive pass ends the game with both scores
set. -/
theorem passMove_spec_witness :
    passMove ses0 .White = .error .NotPlayersTurn ∧
    (∃ t, passMove ses1 .White = .ok t ∧ t.gameOver = true ∧
      t.consecutivePasses = ses1.consecutivePasses + 1 ∧
      t.finalScoreBlack = some (areaScore ses1.currentBoard .Black) ∧
      t.finalScoreWhite = some (areaScore ses1.currentBoard .White)) := by
  exact ⟨(passMove_spec ses0 .White rfl).1 (by decide),
    (passMove_spec ses1 .White rfl).2.2.1 rfl (by decide)⟩

/-- C5: a session with `gameOver = true` accepts no further operation:
every later placement or pass fails with the `GameOver` error kind and
the observed session state is unchanged. -/
theorem gameOver_terminal (s : GameSession) (c : Occupant) (x y : Nat)
    (hgo : s.gameOver = true) :
    placeStone s c x y = .error .GameOver ∧ passMove s c = .error .GameOver ∧
    stepPlace s c x y = (s, some .GameOver) ∧ stepPass s c = (s, some .GameOver) := by
  have h1 : placeStone s c x y = .error .GameOver := by
    rw [placeStone, if_pos hgo]
  have h2 : passMove s c = .error .GameOver := by
    rw [passMove, if_pos hgo]
  exact ⟨h1, h2, by simp [stepPlace, h1], by simp [stepPass, h2]⟩

/-- Witness for C5 on the concrete terminated session `sesOver`. -/
theorem gameOver_terminal_witness :
    placeStone sesOver .Black 0 0 = .error .GameOver ∧
    passMove sesOver .Black = .error .GameOver ∧
    stepPlace sesOver .Black 0 0 = (sesOver, some .GameOver) ∧
    stepPass sesOver .Black = (sesOver, some .GameOver) :=
  gameOver_terminal sesOver .Black 0 0 rfl

/-- C6: a move request rejected with any error kind leaves the session
exactly as it was: the observed session after a failed placement or pass
is the prior session, with no partial mutation. -/
theorem rejected_move_unchanged (s : GameSession) (c : Occupant) (x y : Nat)
    (e : MoveError) :
    ((stepPlace s c x y).2 = some e → (stepPlace s c x y).1 = s) ∧
    ((stepPass s c).2 = some e → (stepPass s c).1 = s) := by
  constructor
  · intro h
    cases hp : placeStone s c x y with
    | ok t => simp [stepPlace, hp] at h
    | error e2 => simp [stepPlace, hp]
  · intro h
    cases hp : passMove s c with
    | ok t => simp [stepPass, hp] at h
    | error e2 => simp [stepPass, hp]

/-- Witness for C6: a wrong-color placement and a wrong-color pass on the
concrete session `ses0` are rejected and leave it untouched. -/
theorem rejected_move_unchanged_witness :
    (stepPlace ses0 .White 0 0).1 = ses0 ∧ (stepPass ses0 .White).1 = ses0 :=
  ⟨(rejected_move_unchanged ses0 .White 0 0 .NotPlayersTurn).1 (by decide),
    (rejected_move_unchanged ses0 .White 0 0 .NotPlayersTurn).2 (by decide)⟩

set_option maxRecDepth 200000 in
/-- C7: under area scoring, a color's score is its stone count plus the
number of empty cells in regions enclosed solely by that color (regions
bordering both colors, or the board edge, count for neither), with komi
6.5 added to White only; on the concrete 9×9 example board where Black's
10 stones enclose a 3-cell empty region touched by no White stone, Black
scores 13 and White scores 6.5. -/
theorem areaScore_spec :
    (∀ b : Board,
      areaScore b .Black =
        ((stonesOnBoard b .Black + enclosedEmptyCount b .Black : Nat) : Rat) ∧
      areaScore b .White =
        ((stonesOnBoard b .White + enclosedEmptyCount b .White : Nat) : Rat) + komi) ∧
    areaScore exampleBoard .Black = 13 ∧ areaScore exampleBoard .White = 13 / 2 := by
  refine ⟨fun b => ⟨by simp [areaScore], by simp [areaScore]⟩, ?_, ?_⟩
  · have h1 : stonesOnBoard exampleBoard .Black = 10 := by decide
    have h2 : enclosedEmptyCount exampleBoard .Black = 3 := by decide
    simp [areaScore, h1, h2]
  · have h1 : stonesOnBoard exampleBoard .White = 0 := by decide
    have h2 : enclosedEmptyCount exampleBoard .White = 0 := by decide
    simp [areaScore, h1, h2, komi]

/-- C9: a serialized board is a flat row-major list of `SpotState` records
carrying the six wire fields, the cell at column `x`, row `y` sits at
linear index `y * boardSize + x`, and `deserialize` fails with
`MalformedBoard` exactly when the input length differs from
`boardSize²`. -/
theorem board_serialization_spec :
    (∀ (n : Nat) (d : List SpotState),
      (deserialize n d = .ok d ↔ d.length = n * n) ∧
      (deserialize n d = .error .MalformedBoard ↔ d.length ≠ n * n)) ∧
    (∀ n x y : Nat, linearIndex n x y = y * n + x) ∧
    (∀ (o : Occupant) (m : Option Int) (mk : Option String) (so : Option Occupant)
        (se : Option String) (pl : Bool),
      (SpotState.mk o m mk so se pl).occupant = o ∧
      (SpotState.mk o m mk so se pl).move_number = m ∧
      (SpotState.mk o m mk so se pl).marker = mk ∧
      (SpotState.mk o m mk so se pl).scoring_owner = so ∧
      (SpotState.mk o m mk so se pl).scoring_explanation = se ∧
      (SpotState.mk o m mk so se pl).playable = pl) := by
  refine ⟨fun n d => ⟨?_, ?_⟩, fun n x y => rfl,
    fun o m mk so se pl => ⟨rfl, rfl, rfl, rfl, rfl, rfl⟩⟩
  · rw [deserialize]
    by_cases h : d.length = n * n <;> simp [h]
  · rw [deserialize]
    by_cases h : d.length = n * n <;> simp [h]

/-- C10: both client game-creation paths — the game-creation form modal's
`handleCreateGame` and the legacy App `createGame` handler — pass the
constant 0 as the `handicap` argument of the `createGame` reducer, so no
client-created game begins with handicap stones. -/
theorem client_createGame_handicap_zero :
    (∀ v : FormValues, (handleCreateGame v).handicap = 0 ∧
      (handleCreateGame v).boardSize = v.boardSize) ∧
    appCreateGame.handicap = 0 ∧ appCreateGame.boardSize = 9 :=
  ⟨fun v => ⟨rfl, rfl⟩, rfl, rfl⟩

/-- C4 counterexample: on the terminated session `sesOver` a wrong-color
pass fails with `GameOver`, not `NotPlayersTurn` — after termination
every move is rejected with the `GameOver` kind (§7), so the claim does
not hold for every session unrestrictedly. -/
theorem passMove_notPlayersTurn_counterexample :
    Occupant.White ≠ sesOver.turn ∧
    passMove sesOver .White ≠ .error .NotPlayersTurn := by
  exact ⟨by decide, by decide⟩
